import Mathlib

/-!
Verification of the PyPoe conversation persistence and context-window
management subsystem against its specification.

The definitions below are a shallow embedding of the Python source:

* `src/pypoe/slack/bot.py` — model context limits table,
  `_estimate_message_tokens`, `_get_model_limits`,
  `_truncate_conversation_context`.
* `src/pypoe/poe/enhanced_history.py` — `EnhancedHistoryManager`:
  media detection, schema migration, message/conversation CRUD,
  media-file bookkeeping.

Machine-independent conventions: timestamps are `Nat` (SQLite DATETIME
values are totally ordered; only their order matters here); the md5 URL
digest is modelled by an injective executable function; disk and network
I/O are modelled as explicit state (a list of on-disk files) plus a
caller-supplied size oracle for fetched resources.
-/

namespace PyPoe

/-! ## Slack bot: model limits and context truncation (`slack/bot.py`) -/

/-- Context limits for one model, mirroring the
`{"max_tokens": _, "max_messages": _}` dictionaries in `bot.py`. -/
structure Limits where
  maxTokens : Nat
  maxMessages : Nat
deriving DecidableEq, Repr

/-- The static `self.model_context_limits` table from `PoePoeBot.__init__`
(`bot.py`), in source (dict-insertion) order. -/
def modelContextLimits : List (String × Limits) :=
  [ ("GPT-3.5-Turbo", ⟨12000, 40⟩),
    ("GPT-4", ⟨100000, 200⟩),
    ("GPT-4o", ⟨100000, 200⟩),
    ("GPT-4o-mini", ⟨100000, 200⟩),
    ("o1-preview", ⟨100000, 200⟩),
    ("o1-mini", ⟨100000, 200⟩),
    ("GPT-4-Turbo", ⟨100000, 200⟩),
    ("Claude-3-Opus", ⟨150000, 300⟩),
    ("Claude-3-Sonnet", ⟨150000, 300⟩),
    ("Claude-3-Haiku", ⟨150000, 300⟩),
    ("Claude-3.5-Sonnet", ⟨150000, 300⟩),
    ("Claude-3.5-Haiku", ⟨150000, 300⟩),
    ("Gemini-1.5-Pro", ⟨800000, 500⟩),
    ("Gemini-1.5-Flash", ⟨800000, 500⟩),
    ("Gemini-2.0-Flash", ⟨800000, 500⟩),
    ("Default", ⟨12000, 40⟩) ]

/-- A chat message as handled by the Slack bot truncation code:
a dict with `role` and `content` keys. -/
structure ChatMsg where
  role : String
  content : String
deriving DecidableEq, Repr

/-- Model of `_estimate_message_tokens`: `len(content) // 4` plus a fixed
overhead of 10 tokens. -/
def estimateMessageTokens (m : ChatMsg) : Nat :=
  m.content.length / 4 + 10

/-- Does the character list `p` start with... helper for substring tests
(Python's `in` operator on strings). -/
def charsStartWith : List Char → List Char → Bool
  | [], _ => true
  | _ :: _, [] => false
  | p :: ps, c :: cs => p == c && charsStartWith ps cs

/-- Python's `p in s` substring containment on strings. -/
def strContains (s p : String) : Bool :=
  goSub p.toList s.toList
where
  goSub (p : List Char) : List Char → Bool
    | [] => p.isEmpty
    | c :: cs => charsStartWith p (c :: cs) || goSub p cs

/-- The partial-match test of `_get_model_limits`:
`any(part in model_name for part in known_model.split("-")[:2])`. -/
def familyMatch (knownModel modelName : String) : Bool :=
  ((knownModel.splitOn "-").take 2).any (fun part => strContains modelName part)

/-- Model of `_get_model_limits`: exact dictionary lookup first, then the
first (in table order) non-`"Default"` entry whose family matches, then
the `"Default"` entry. -/
def getModelLimits (modelName : String) : Limits :=
  match modelContextLimits.lookup modelName with
  | some l => l
  | none =>
    match modelContextLimits.find? (fun e => e.1 != "Default" && familyMatch e.1 modelName) with
    | some e => e.2
    | none => ⟨12000, 40⟩

/-- Summed token estimate over a message list
(`sum(self._estimate_message_tokens(msg) for msg in messages)`). -/
def totalTokens (messages : List ChatMsg) : Nat :=
  (messages.map estimateMessageTokens).sum

/-- The backwards-accumulation loop of `_truncate_conversation_context`:
walk the reversed message list, prepend each message while both budgets
still hold, stop at the first violation.  `acc` holds the kept messages in
original order, `tok` the running token estimate. -/
def windowLoop (maxM maxT : Nat) : List ChatMsg → List ChatMsg → Nat → List ChatMsg
  | [], acc, _ => acc
  | m :: rest, acc, tok =>
    let mt := estimateMessageTokens m
    if maxM ≤ acc.length ∨ maxT < tok + mt then acc
    else windowLoop maxM maxT rest (m :: acc) (tok + mt)

/-- Model of `_truncate_conversation_context` (`bot.py`): return the input
when empty or within both limits; otherwise keep a maximal budget-respecting
suffix, falling back to the single most recent message when even it does
not fit. -/
def truncateConversationContext (messages : List ChatMsg) (modelName : String) :
    List ChatMsg :=
  if messages.isEmpty then messages
  else
    let limits := getModelLimits modelName
    if messages.length ≤ limits.maxMessages ∧ totalTokens messages ≤ limits.maxTokens then
      messages
    else
      let truncated := windowLoop limits.maxMessages limits.maxTokens messages.reverse [] 0
      if truncated.isEmpty then messages.drop (messages.length - 1) else truncated

theorem windowLoop_eq_take_reverse_append (maxM maxT : Nat) :
    ∀ (rev acc : List ChatMsg) (tok : Nat),
      ∃ j, windowLoop maxM maxT rev acc tok = (rev.take j).reverse ++ acc
  | [], acc, tok => ⟨0, by simp [windowLoop]⟩
  | m :: rest, acc, tok => by
    rw [windowLoop]
    by_cases h : maxM ≤ acc.length ∨ maxT < tok + estimateMessageTokens m
    · exact ⟨0, by simp [h]⟩
    · simp only [if_neg h]
      obtain ⟨j, hj⟩ :=
        windowLoop_eq_take_reverse_append maxM maxT rest (m :: acc) (tok + estimateMessageTokens m)
      exact ⟨j + 1, by simp [hj, List.take_succ_cons]⟩

theorem windowLoop_suffix (maxM maxT : Nat) (messages : List ChatMsg) :
    windowLoop maxM maxT messages.reverse [] 0 <:+ messages := by
  obtain ⟨j, hj⟩ := windowLoop_eq_take_reverse_append maxM maxT messages.reverse [] 0
  rw [hj, List.append_nil]
  have hpre : messages.reverse.take j <+: messages.reverse :=
    ⟨messages.reverse.drop j, List.take_append_drop j messages.reverse⟩
  have := List.reverse_suffix.mpr hpre
  simpa using this

theorem drop_length_sub_one_suffix (l : List ChatMsg) : l.drop (l.length - 1) <:+ l :=
  ⟨l.take (l.length - 1), by rw [List.take_append_drop]⟩

theorem drop_length_sub_one_eq {α : Type _} :
    ∀ (l : List α) (h : l ≠ []), l.drop (l.length - 1) = [l.getLast h]
  | [a], _ => rfl
  | a :: b :: t, _ => by
    have ih := drop_length_sub_one_eq (b :: t) (by simp)
    simpa [List.getLast_cons] using ih

theorem reverse_eq_getLast_cons {α : Type _} (l : List α) (h : l ≠ []) :
    l.reverse = l.getLast h :: l.dropLast.reverse := by
  conv_lhs => rw [← List.dropLast_append_getLast h]
  simp

/-- The claim C1 theorem. For a non-empty message list the truncation returns
a non-empty list, and when even the most recent message's token estimate
exceeds the model's `max_tokens` it returns exactly that message. -/
theorem c1_truncation_nonempty_and_single_overflow
    (messages : List ChatMsg) (modelName : String) (h : messages ≠ []) :
    truncateConversationContext messages modelName ≠ [] ∧
    ((getModelLimits modelName).maxTokens < estimateMessageTokens (messages.getLast h) →
      truncateConversationContext messages modelName = [messages.getLast h]) := by
  have hne : messages.isEmpty = false := by simpa [List.isEmpty_iff] using h
  constructor
  · rw [truncateConversationContext]
    simp only [hne, Bool.false_eq_true, if_false]
    by_cases hw : messages.length ≤ (getModelLimits modelName).maxMessages ∧
        totalTokens messages ≤ (getModelLimits modelName).maxTokens
    · simpa [hw] using h
    · simp only [hw, if_false]
      by_cases ht : (windowLoop (getModelLimits modelName).maxMessages
          (getModelLimits modelName).maxTokens messages.reverse [] 0).isEmpty
      · simp only [ht, if_true]
        rw [drop_length_sub_one_eq messages h]
        simp
      · simp only [ht, Bool.false_eq_true, if_false]
        simpa [List.isEmpty_iff] using ht
  · intro hov
    have hmem : estimateMessageTokens (messages.getLast h) ∈ messages.map estimateMessageTokens :=
      List.mem_map_of_mem _ (List.getLast_mem h)
    have hsum : estimateMessageTokens (messages.getLast h) ≤ totalTokens messages :=
      List.le_sum_of_mem hmem
    have hw : ¬ (messages.length ≤ (getModelLimits modelName).maxMessages ∧
        totalTokens messages ≤ (getModelLimits modelName).maxTokens) := by
      rintro ⟨-, h2⟩
      omega
    rw [truncateConversationContext]
    simp only [hne, Bool.false_eq_true, if_false, hw, if_false]
    rw [reverse_eq_getLast_cons messages h, windowLoop]
    have hcond : (getModelLimits modelName).maxMessages ≤ ([] : List ChatMsg).length ∨
        (getModelLimits modelName).maxTokens < 0 + estimateMessageTokens (messages.getLast h) := by
      right; omega
    simp only [hcond, if_true]
    simp only [List.isEmpty_nil, if_true]
    exact drop_length_sub_one_eq messages h

/-- Witness for C1 at a concrete input. -/
theorem c1_truncation_nonempty_and_single_overflow_witness :
    ([ChatMsg.mk "user" "hi"] ≠ []) ∧
    truncateConversationContext [ChatMsg.mk "user" "hi"] "GPT-4" ≠ [] :=
  ⟨by decide,
   (c1_truncation_nonempty_and_single_overflow [ChatMsg.mk "user" "hi"] "GPT-4" (by decide)).1⟩

/-- The claim C2 theorem. The truncation result is always a contiguous
trailing sublist (suffix) of the input, and when the input is within both
the message-count and token budgets it is returned unchanged. -/
theorem c2_truncation_suffix_and_identity_within_limits
    (messages : List ChatMsg) (modelName : String) :
    truncateConversationContext messages modelName <:+ messages ∧
    (messages.length ≤ (getModelLimits modelName).maxMessages ∧
        totalTokens messages ≤ (getModelLimits modelName).maxTokens →
      truncateConversationContext messages modelName = messages) := by
  by_cases hne : messages.isEmpty
  · rw [truncateConversationContext]
    simp [hne]
  · have hne' : messages.isEmpty = false := by simpa using hne
    by_cases hw : messages.length ≤ (getModelLimits modelName).maxMessages ∧
        totalTokens messages ≤ (getModelLimits modelName).maxTokens
    · rw [truncateConversationContext]
      simp [hne', hw]
    · constructor
      · rw [truncateConversationContext]
        simp only [hne', Bool.false_eq_true, if_false, hw, if_false]
        by_cases ht : (windowLoop (getModelLimits modelName).maxMessages
            (getModelLimits modelName).maxTokens messages.reverse [] 0).isEmpty
        · simp only [ht, if_true]
          exact drop_length_sub_one_suffix messages
        · simp only [ht, Bool.false_eq_true, if_false]
          exact windowLoop_suffix _ _ messages
      · intro hcontra
        exact absurd hcontra hw

/-- Witness for C2 at a concrete input. -/
theorem c2_truncation_suffix_and_identity_within_limits_witness :
    truncateConversationContext [ChatMsg.mk "user" "hello"] "Claude-3-Opus" <:+
      [ChatMsg.mk "user" "hello"] ∧
    truncateConversationContext [ChatMsg.mk "user" "hello"] "Claude-3-Opus" =
      [ChatMsg.mk "user" "hello"] :=
  ⟨(c2_truncation_suffix_and_identity_within_limits [ChatMsg.mk "user" "hello"] "Claude-3-Opus").1,
   (c2_truncation_suffix_and_identity_within_limits
      [ChatMsg.mk "user" "hello"] "Claude-3-Opus").2 (by decide)⟩

theorem lookup_eq_some_of_mem {α β : Type _} [BEq α] [LawfulBEq α] :
    ∀ (l : List (α × β)), (l.map Prod.fst).Nodup →
      ∀ {k : α} {v : β}, (k, v) ∈ l → l.lookup k = some v
  | [], _, _, _, hm => absurd hm (List.not_mem_nil _)
  | (a, b) :: t, hnd, k, v, hm => by
    rcases List.mem_cons.mp hm with heq | htl
    · have h1 : k = a := congrArg Prod.fst heq
      have h2 : v = b := congrArg Prod.snd heq
      subst h1; subst h2
      simp [List.lookup]
    · have hk : k ≠ a := by
        rintro rfl
        have : k ∈ t.map Prod.fst := List.mem_map_of_mem Prod.fst htl
        simp only [List.map_cons, List.nodup_cons] at hnd
        exact hnd.1 this
      have hb : (k == a) = false := beq_false_of_ne hk
      have ih := lookup_eq_some_of_mem t (by
        simp only [List.map_cons, List.nodup_cons] at hnd
        exact hnd.2) htl
      simp [List.lookup, hb, ih]

theorem lookup_eq_none_of_forall {α β : Type _} [BEq α] [LawfulBEq α] :
    ∀ (l : List (α × β)) (k : α), (∀ v, (k, v) ∉ l) → l.lookup k = none
  | [], _, _ => rfl
  | (a, b) :: t, k, hnm => by
    have hk : k ≠ a := by
      rintro rfl
      exact hnm b (List.mem_cons_self _ _)
    have hb : (k == a) = false := beq_false_of_ne hk
    have ih := lookup_eq_none_of_forall t k (fun v hv => hnm v (List.mem_cons_of_mem _ hv))
    simp [List.lookup, hb, ih]

theorem modelContextLimits_keys_nodup : (modelContextLimits.map Prod.fst).Nodup := by
  decide

/-- The claim C3 theorem. Limits resolution proceeds: exact table key first,
then the first non-Default family whose first two hyphen-delimited tokens
partially match the model name, then the conservative 12000/40 default. -/
theorem c3_model_limits_resolution_order (modelName : String) :
    (∀ l, (modelName, l) ∈ modelContextLimits → getModelLimits modelName = l) ∧
    ((∀ l, (modelName, l) ∉ modelContextLimits) →
      ∀ e, modelContextLimits.find?
          (fun e => e.1 != "Default" && familyMatch e.1 modelName) = some e →
        getModelLimits modelName = e.2 ∧ e ∈ modelContextLimits ∧
          e.1 ≠ "Default" ∧ familyMatch e.1 modelName = true) ∧
    ((∀ l, (modelName, l) ∉ modelContextLimits) →
      modelContextLimits.find?
          (fun e => e.1 != "Default" && familyMatch e.1 modelName) = none →
        getModelLimits modelName = ⟨12000, 40⟩) := by
  refine ⟨fun l hm => ?_, fun hnm e hf => ?_, fun hnm hf => ?_⟩
  · have := lookup_eq_some_of_mem modelContextLimits modelContextLimits_keys_nodup hm
    rw [getModelLimits, this]
  · have hlk := lookup_eq_none_of_forall modelContextLimits modelName hnm
    have hmem := List.mem_of_find?_eq_some hf
    have hpred := List.find?_some hf
    simp only [Bool.and_eq_true, bne_iff_ne, ne_eq] at hpred
    refine ⟨?_, hmem, hpred.1, hpred.2⟩
    rw [getModelLimits, hlk, hf]
  · have hlk := lookup_eq_none_of_forall modelContextLimits modelName hnm
    rw [getModelLimits, hlk, hf]

/-- Witness for C3 at concrete inputs (exact match case). -/
theorem c3_model_limits_resolution_order_witness :
    (("Claude-3-Opus", (⟨150000, 300⟩ : Limits)) ∈ modelContextLimits) ∧
    getModelLimits "Claude-3-Opus" = ⟨150000, 300⟩ :=
  ⟨by decide,
   (c3_model_limits_resolution_order "Claude-3-Opus").1 ⟨150000, 300⟩ (by decide)⟩

/-! ## Media detection (`enhanced_history.py`, `_detect_media_content`)

The two `re.findall` calls are embedded as an executable scanner with the
same matching discipline: scan left to right, at each position attempt a
match, on success emit the matched text and resume after it, on failure
advance one character.  The first pattern
`https?://[^\s<>"\x27\x60]*\.(?:jpg|jpeg|png|gif|webp|mp4|mov|avi|webm|pdf)`
is matched case-insensitively with the greedy star backtracking from the
longest run, alternatives tried in source order; the second pattern
`https://poe\.com/[a-zA-Z0-9/\x2d_]*` is matched case-sensitively. -/

/-- ASCII whitespace recognised by the regex class `\s`. -/
def pyWhitespace (c : Char) : Bool :=
  c == ' ' || c == '\t' || c == '\n' || c == '\r' || c == '\x0b' || c == '\x0c'

/-- Characters admitted by the negated class of the media-URL pattern:
everything except whitespace, angle brackets, double quote, single quote
and backtick. -/
def urlBodyChar (c : Char) : Bool :=
  !(pyWhitespace c || c == '<' || c == '>' || c == '"' ||
    c == Char.ofNat 39 || c == Char.ofNat 96)

/-- The media file extensions of the URL pattern, in alternation order. -/
def mediaExtensions : List (List Char) :=
  ["jpg", "jpeg", "png", "gif", "webp", "mp4", "mov", "avi", "webm", "pdf"].map
    String.toList

/-- Case-insensitive "starts with" where the pattern `p` is lowercase. -/
def charsStartWithCI : List Char → List Char → Bool
  | [], _ => true
  | _ :: _, [] => false
  | p :: ps, c :: cs => p == c.toLower && charsStartWithCI ps cs

/-- Consume the lowercase literal `lit` case-insensitively from the front of
the input, returning the consumed original characters and the rest. -/
def stripCI : List Char → List Char → Option (List Char × List Char)
  | [], cs => some ([], cs)
  | _ :: _, [] => none
  | l :: ls, c :: cs =>
    if c.toLower == l then (stripCI ls cs).map (fun p => (c :: p.1, p.2)) else none

/-- Consume the literal `lit` case-sensitively, returning the rest. -/
def stripExact : List Char → List Char → Option (List Char)
  | [], cs => some cs
  | _ :: _, [] => none
  | l :: ls, c :: cs => if c == l then stripExact ls cs else none

/-- Length of the first media extension matching at the given point, if any
(alternatives in source order, case-insensitive). -/
def extAt (ds : List Char) : Option Nat :=
  (mediaExtensions.find? (fun e => charsStartWithCI e ds)).map List.length

/-- Backtracking search of the greedy star: the largest split point `k` of
`body` at which a literal dot followed by a known extension matches,
together with that extension's length. -/
def findDotExt (body : List Char) : Option (Nat × Nat) :=
  match (List.range body.length).reverse.find?
      (fun k => body.getD k ' ' == '.' && (extAt (body.drop (k + 1))).isSome) with
  | none => none
  | some k => (extAt (body.drop (k + 1))).map (fun el => (k, el))

/-- Attempt the media-URL pattern at the head of the input; on success
return the matched characters and the remaining input. -/
def tryMatchMediaUrl (cs : List Char) : Option (List Char × List Char) :=
  match stripCI "http".toList cs with
  | none => none
  | some (s1, r1) =>
    let sr : List Char × List Char :=
      match r1 with
      | c :: rest => if c.toLower == 's' then ([c], rest) else ([], r1)
      | [] => ([], r1)
    match stripCI "://".toList sr.2 with
    | none => none
    | some (s3, r3) =>
      let body := r3.takeWhile urlBodyChar
      let rest := r3.dropWhile urlBodyChar
      match findDotExt body with
      | none => none
      | some (k, el) =>
        let stop := k + 1 + el
        some (s1 ++ sr.1 ++ s3 ++ body.take stop, body.drop stop ++ rest)

/-- Characters of the trailing class of the Poe pattern. -/
def poeChar (c : Char) : Bool :=
  c.isAlpha || c.isDigit || c == '/' || c == '-' || c == '_'

/-- Attempt the Poe media pattern at the head of the input. -/
def tryMatchPoeUrl (cs : List Char) : Option (List Char × List Char) :=
  match stripExact "https://poe.com/".toList cs with
  | none => none
  | some r =>
    some ("https://poe.com/".toList ++ r.takeWhile poeChar, r.dropWhile poeChar)

/-- Generic `re.findall` driver: scan left to right, emit each match and
resume after it.  `fuel` bounds the recursion; every match consumes at
least one character, so input length is always enough fuel. -/
def scanMatches (tryMatch : List Char → Option (List Char × List Char)) :
    Nat → List Char → List String
  | 0, _ => []
  | _, [] => []
  | fuel + 1, c :: cs =>
    match tryMatch (c :: cs) with
    | some (m, rest) => m.asString :: scanMatches tryMatch fuel rest
    | none => scanMatches tryMatch fuel cs

/-- Model of `re.findall(url_pattern, content, re.IGNORECASE)`. -/
def findMediaUrls (content : String) : List String :=
  scanMatches tryMatchMediaUrl content.toList.length content.toList

/-- Model of `re.findall(poe_media_pattern, content)`. -/
def findPoeUrls (content : String) : List String :=
  scanMatches tryMatchPoeUrl content.toList.length content.toList

/-- The `all_urls = urls + poe_urls` concatenation of `_detect_media_content`. -/
def findAllUrls (content : String) : List String :=
  findMediaUrls content ++ findPoeUrls content

/-- The `self.media_models` table of `EnhancedHistoryManager.__init__`,
in source (dict-insertion) order. -/
def mediaModels : List (String × List String) :=
  [ ("image", ["DALL-E-3", "FLUX.1-schnell", "FLUX.1-dev",
               "Stable-Diffusion-XL", "Imagen-3", "Imagen-3-Fast"]),
    ("video", ["Runway-Gen-3", "Veo-2", "Kling-Pro-v1.5"]) ]

/-- The media-model loop of `_detect_media_content`: the first media type
whose model list has a member that is a substring of the bot name. -/
def detectMediaType (botName : String) : Option String :=
  (mediaModels.find? (fun p => p.2.any (fun model => strContains botName model))).map
    Prod.fst

/-- The `is_media_model` test of `get_conversation_messages`: some model of
some media family is a substring of the bot name. -/
def isMediaModel (botName : String) : Bool :=
  mediaModels.any (fun p => p.2.any (fun model => strContains botName model))

/-- The dict returned by `_detect_media_content`. -/
structure MediaInfo where
  hasMedia : Bool
  mediaType : Option String
  urls : List String
  contentType : String
deriving DecidableEq, Repr

/-- Model of `_detect_media_content` (`enhanced_history.py`). -/
def detectMediaContent (content botName : String) : MediaInfo :=
  let mediaType := detectMediaType botName
  let allUrls := findAllUrls content
  if allUrls ≠ [] ∨ mediaType.isSome then
    { hasMedia := true
      mediaType := mediaType
      urls := allUrls
      contentType := if mediaType.isSome ∧ allUrls ≠ [] then "media" else "mixed" }
  else
    { hasMedia := false, mediaType := none, urls := [], contentType := "text" }

/-! ## Schema store rows and migration (`enhanced_history.py`) -/

/-- A row of the `conversations` table. -/
structure ConvRow where
  id : String
  title : String
  bot_name : String
  chat_mode : String
  created_at : Nat
  updated_at : Nat
deriving DecidableEq, Repr

/-- A row of the `messages` table.  `media_data` is the serialized media
info column (NULL when the message has no media). -/
structure MsgRow where
  id : Nat
  conversation_id : String
  role : String
  content : String
  content_type : String
  media_data : Option String
  timestamp : Nat
deriving DecidableEq, Repr

/-- A row of the `media_files` table, with the columns `add_message`
actually inserts (`width`/`height`/`duration` are never written and stay
NULL, so they are omitted).  `media_type` is an `Option` because the code
stores `media_info.get('media_type', 'unknown')`, whose value is `None`
for URL-only content. -/
structure MediaRow where
  message_id : Nat
  file_hash : String
  original_url : String
  local_path : String
  media_type : Option String
  file_size : Nat
deriving DecidableEq, Repr

/-- Database state for the migration model: the column sets of the two
migrated tables (as reported by `PRAGMA table_info`) plus their rows,
which `ALTER TABLE ... ADD COLUMN` never touches. -/
structure SchemaDb where
  convCols : List String
  msgCols : List String
  convRows : List ConvRow
  msgRows : List MsgRow
deriving DecidableEq, Repr

/-- One `if col not in column_names: ALTER TABLE ... ADD COLUMN` step.
`canAlter` models the environment (e.g. a read-only filesystem makes the
ALTER raise).  Returns the new column list, the ALTERs performed, and
whether the step succeeded. -/
def tryAddColumn (canAlter : String → Bool) (c : String) (cols : List String) :
    List String × List String × Bool :=
  if c ∈ cols then (cols, [], true)
  else if canAlter c then (cols ++ [c], [c], true)
  else (cols, [], false)

/-- Two sequential column additions on one table; a failure of the first
aborts before the second (the exception propagates to the enclosing
handler), keeping any columns already added. -/
def addTwoColumns (canAlter : String → Bool) (c1 c2 : String) (cols : List String) :
    List String × List String × Option String :=
  if (tryAddColumn canAlter c1 cols).2.2 then
    if (tryAddColumn canAlter c2 (tryAddColumn canAlter c1 cols).1).2.2 then
      ((tryAddColumn canAlter c2 (tryAddColumn canAlter c1 cols).1).1,
       (tryAddColumn canAlter c1 cols).2.1 ++
         (tryAddColumn canAlter c2 (tryAddColumn canAlter c1 cols).1).2.1,
       none)
    else ((tryAddColumn canAlter c1 cols).1, (tryAddColumn canAlter c1 cols).2.1, some c2)
  else (cols, [], some c1)

/-- The body of `_migrate_basic_to_enhanced`: add `chat_mode` and
`updated_at` to `conversations`, then `content_type` and `media_data` to
`messages`, stopping at the first failure.  Returns the resulting state,
the list of ALTERs performed, and the failed column (if any). -/
def migrateRun (db : SchemaDb) (canAlter : String → Bool) :
    SchemaDb × List String × Option String :=
  match (addTwoColumns canAlter "chat_mode" "updated_at" db.convCols).2.2 with
  | some e =>
    ({ db with convCols := (addTwoColumns canAlter "chat_mode" "updated_at" db.convCols).1 },
     (addTwoColumns canAlter "chat_mode" "updated_at" db.convCols).2.1, some e)
  | none =>
    match (addTwoColumns canAlter "content_type" "media_data" db.msgCols).2.2 with
    | some e =>
      ({ db with
          convCols := (addTwoColumns canAlter "chat_mode" "updated_at" db.convCols).1,
          msgCols := (addTwoColumns canAlter "content_type" "media_data" db.msgCols).1 },
       (addTwoColumns canAlter "chat_mode" "updated_at" db.convCols).2.1 ++
         (addTwoColumns canAlter "content_type" "media_data" db.msgCols).2.1, some e)
    | none =>
      ({ db with
          convCols := (addTwoColumns canAlter "chat_mode" "updated_at" db.convCols).1,
          msgCols := (addTwoColumns canAlter "content_type" "media_data" db.msgCols).1 },
       (addTwoColumns canAlter "chat_mode" "updated_at" db.convCols).2.1 ++
         (addTwoColumns canAlter "content_type" "media_data" db.msgCols).2.1, none)

/-- Model of `_migrate_basic_to_enhanced` as seen by its caller: the whole
body is wrapped in `try/except Exception`, which prints a warning and
falls through, so the coroutine always returns normally (`Except.ok`)
with whatever part of the migration was applied. -/
def migrateBasicToEnhanced (db : SchemaDb) (canAlter : String → Bool) :
    Except String SchemaDb :=
  Except.ok (migrateRun db canAlter).1

theorem tryAddColumn_sublist (canAlter : String → Bool) (c : String) (cols : List String) :
    List.Sublist cols (tryAddColumn canAlter c cols).1 := by
  unfold tryAddColumn
  split
  · exact List.Sublist.refl cols
  · split
    · exact List.sublist_append_left cols [c]
    · exact List.Sublist.refl cols

theorem tryAddColumn_of_mem (canAlter : String → Bool) {c : String} {cols : List String}
    (h : c ∈ cols) : tryAddColumn canAlter c cols = (cols, [], true) := by
  unfold tryAddColumn
  simp [h]

theorem tryAddColumn_true_mem_self (c : String) (cols : List String) :
    c ∈ (tryAddColumn (fun _ => true) c cols).1 := by
  unfold tryAddColumn
  split
  · assumption
  · simp

theorem tryAddColumn_mem_mono (canAlter : String → Bool) (c : String) {x : String}
    {cols : List String} (h : x ∈ cols) : x ∈ (tryAddColumn canAlter c cols).1 := by
  unfold tryAddColumn
  split
  · exact h
  · split
    · exact List.mem_append_left _ h
    · exact h

theorem addTwoColumns_sublist (canAlter : String → Bool) (c1 c2 : String)
    (cols : List String) : List.Sublist cols (addTwoColumns canAlter c1 c2 cols).1 := by
  unfold addTwoColumns
  split
  · split
    · exact (tryAddColumn_sublist canAlter c1 cols).trans
        (tryAddColumn_sublist canAlter c2 _)
    · exact tryAddColumn_sublist canAlter c1 cols
  · exact List.Sublist.refl cols

theorem tryAddColumn_true_success (c : String) (cols : List String) :
    (tryAddColumn (fun _ => true) c cols).2.2 = true := by
  unfold tryAddColumn
  split
  · rfl
  · simp

theorem addTwoColumns_true_members (c1 c2 : String) (cols : List String) :
    c1 ∈ (addTwoColumns (fun _ => true) c1 c2 cols).1 ∧
    c2 ∈ (addTwoColumns (fun _ => true) c1 c2 cols).1 ∧
    (addTwoColumns (fun _ => true) c1 c2 cols).2.2 = none := by
  have h1s := tryAddColumn_true_success c1 cols
  have h2s := tryAddColumn_true_success c2 (tryAddColumn (fun _ => true) c1 cols).1
  unfold addTwoColumns
  simp only [h1s, h2s, if_true]
  refine ⟨tryAddColumn_mem_mono _ c2 (tryAddColumn_true_mem_self c1 cols),
    tryAddColumn_true_mem_self c2 _, ?_⟩
  simp

theorem addTwoColumns_of_members (canAlter : String → Bool) {c1 c2 : String}
    {cols : List String} (h1 : c1 ∈ cols) (h2 : c2 ∈ cols) :
    addTwoColumns canAlter c1 c2 cols = (cols, [], none) := by
  unfold addTwoColumns
  rw [tryAddColumn_of_mem canAlter h1]
  simp [tryAddColumn_of_mem canAlter h2]

/-- Counterexample to claim C7 as stated: on a basic schema missing
`chat_mode` and an environment where no column can be added, the migration
still returns normally (`Except.ok`) with the column missing, instead of
raising; the failure is recorded only as a swallowed warning. -/
theorem c7_migration_failure_counterexample :
    migrateBasicToEnhanced
        ⟨["id", "title", "bot_name", "created_at"],
         ["id", "conversation_id", "role", "content", "timestamp"], [], []⟩
        (fun _ => false) =
      Except.ok
        ⟨["id", "title", "bot_name", "created_at"],
         ["id", "conversation_id", "role", "content", "timestamp"], [], []⟩ ∧
    "chat_mode" ∉
      (["id", "title", "bot_name", "created_at"] : List String) ∧
    (migrateRun
        ⟨["id", "title", "bot_name", "created_at"],
         ["id", "conversation_id", "role", "content", "timestamp"], [], []⟩
        (fun _ => false)).2.2 = some "chat_mode" := by
  refine ⟨?_, by decide, ?_⟩ <;> rfl

/-- The amended claim C7 theorem: whatever columns fail to be added, the
migration never raises to its caller — it catches the error and returns
normally — and the schema it leaves behind only extends the original
(no column or row is lost). -/
theorem c7_migration_catches_failures_amended (db : SchemaDb) (canAlter : String → Bool) :
    (migrateBasicToEnhanced db canAlter).isOk = true ∧
    (∀ db', migrateBasicToEnhanced db canAlter = Except.ok db' →
      List.Sublist db.convCols db'.convCols ∧ List.Sublist db.msgCols db'.msgCols ∧
      db'.convRows = db.convRows ∧ db'.msgRows = db.msgRows) := by
  constructor
  · rfl
  · intro db' hdb'
    have hdb : db' = (migrateRun db canAlter).1 := by
      simpa [migrateBasicToEnhanced] using hdb'.symm
    subst hdb
    unfold migrateRun
    have hc := addTwoColumns_sublist canAlter "chat_mode" "updated_at" db.convCols
    have hm := addTwoColumns_sublist canAlter "content_type" "media_data" db.msgCols
    split
    · exact ⟨hc, List.Sublist.refl _, rfl, rfl⟩
    · split
      · exact ⟨hc, hm, rfl, rfl⟩
      · exact ⟨hc, hm, rfl, rfl⟩

/-- Witness for the amended C7 at a concrete input. -/
theorem c7_migration_catches_failures_amended_witness :
    (migrateBasicToEnhanced ⟨["id"], ["id"], [], []⟩ (fun _ => false)).isOk = true ∧
    List.Sublist (["id"] : List String)
      ((migrateRun ⟨["id"], ["id"], [], []⟩ (fun _ => false)).1).convCols :=
  ⟨(c7_migration_catches_failures_amended ⟨["id"], ["id"], [], []⟩ (fun _ => false)).1,
   ((c7_migration_catches_failures_amended ⟨["id"], ["id"], [], []⟩ (fun _ => false)).2
      _ rfl).1⟩

/-- The claim C8 theorem: on the success path, migrating twice produces the
schema of migrating once, the second run performs no ALTER statements, and
no existing column or row is dropped or renamed by either run. -/
theorem c8_migration_idempotent (db : SchemaDb) :
    (migrateRun (migrateRun db (fun _ => true)).1 (fun _ => true)).1 =
      (migrateRun db (fun _ => true)).1 ∧
    (migrateRun (migrateRun db (fun _ => true)).1 (fun _ => true)).2.1 = [] ∧
    List.Sublist db.convCols (migrateRun db (fun _ => true)).1.convCols ∧
    List.Sublist db.msgCols (migrateRun db (fun _ => true)).1.msgCols ∧
    (migrateRun db (fun _ => true)).1.convRows = db.convRows ∧
    (migrateRun db (fun _ => true)).1.msgRows = db.msgRows := by
  obtain ⟨hcm1, hcm2, hcerr⟩ :=
    addTwoColumns_true_members "chat_mode" "updated_at" db.convCols
  obtain ⟨hmm1, hmm2, hmerr⟩ :=
    addTwoColumns_true_members "content_type" "media_data" db.msgCols
  have hrun : migrateRun db (fun _ => true) =
      ({ db with
          convCols := (addTwoColumns (fun _ => true) "chat_mode" "updated_at" db.convCols).1,
          msgCols := (addTwoColumns (fun _ => true) "content_type" "media_data" db.msgCols).1 },
        (addTwoColumns (fun _ => true) "chat_mode" "updated_at" db.convCols).2.1 ++
          (addTwoColumns (fun _ => true) "content_type" "media_data" db.msgCols).2.1,
        none) := by
    unfold migrateRun
    rw [hcerr, hmerr]
  have hrun2 : migrateRun (migrateRun db (fun _ => true)).1 (fun _ => true) =
      ((migrateRun db (fun _ => true)).1, [], none) := by
    rw [hrun]
    unfold migrateRun
    rw [addTwoColumns_of_members _ hcm1 hcm2, addTwoColumns_of_members _ hmm1 hmm2]
    simp
  refine ⟨by rw [hrun2], by rw [hrun2], ?_, ?_, by rw [hrun], by rw [hrun]⟩
  · rw [hrun]
    exact addTwoColumns_sublist _ "chat_mode" "updated_at" db.convCols
  · rw [hrun]
    exact addTwoColumns_sublist _ "content_type" "media_data" db.msgCols

/-! ## Enhanced history manager state model

The store state holds the three tables plus the media directory, modelled
as an association list from file path to byte size.  Network fetches are
modelled by a caller-supplied size oracle and always succeed (HTTP 200);
the md5 URL digest is modelled by the identity function, which preserves
the properties the code relies on (deterministic, collision-free). -/

/-- Full store state: the three tables and the on-disk media directory. -/
structure State where
  conversations : List ConvRow
  messages : List MsgRow
  mediaFiles : List MediaRow
  disk : List (String × Nat)
deriving DecidableEq, Repr

/-- Models `hashlib.md5(url.encode()).hexdigest()`: a deterministic,
collision-free digest of the URL, embedded as the identity. -/
def urlHash (url : String) : String := url

/-- Models `str(self.media_dir / name)` with the media directory fixed at
`media`. -/
def mediaDirPath (name : String) : String := "media/" ++ name

/-- The path component of a URL as computed by `urlparse(url).path`:
everything from the first slash after the `://` separator, up to a query
or fragment delimiter. -/
def urlPathChars (url : String) : List Char :=
  let cs := url.toList
  let afterScheme := dropScheme cs
  (afterScheme.dropWhile (fun c => c ≠ '/')).takeWhile (fun c => c ≠ '?' ∧ c ≠ '#')
where
  dropScheme : List Char → List Char
    | [] => []
    | c :: cs =>
      if charsStartWith "://".toList (c :: cs) then cs.drop 2
      else dropScheme cs

/-- Models `Path(parsed_url.path).suffix`: the extension of the last path
component, empty for dotless or dotfile names. -/
def pathSuffix (url : String) : String :=
  let comp := ((urlPathChars url).reverse.takeWhile (fun c => c ≠ '/')).reverse
  let revTail := comp.reverse.takeWhile (fun c => c ≠ '.')
  if revTail.length + 1 < comp.length then
    (comp.drop (comp.length - revTail.length - 1)).asString
  else ""

/-- Result of `_download_media` in the success model: local path, URL
digest, byte size and the updated media directory. -/
structure DownloadResult where
  localPath : String
  fileHash : String
  fileSize : Nat
  disk : List (String × Nat)
deriving DecidableEq, Repr

/-- Model of `_download_media`: hash-named file, extension from the URL
path or a `media_type`-dependent default; skip the fetch when the file
already exists (dedup fast path), otherwise fetch (always succeeding) and
write the file. -/
def downloadMediaFile (disk : List (String × Nat)) (url : String)
    (mediaType : Option String) (fetch : String → Nat) : DownloadResult :=
  let hash := urlHash url
  let ext :=
    if pathSuffix url = "" then (if mediaType = some "image" then ".jpg" else ".mp4")
    else pathSuffix url
  let path := mediaDirPath (hash ++ ext)
  match disk.lookup path with
  | some size => ⟨path, hash, size, disk⟩
  | none => ⟨path, hash, fetch url, disk ++ [(path, fetch url)]⟩

/-- The AUTOINCREMENT id for the next `messages` insert. -/
def nextMessageId (s : State) : Nat :=
  (s.messages.map MsgRow.id).foldr max 0 + 1

/-- The file hashes currently present in `media_files` (the UNIQUE column). -/
def mediaHashes (s : State) : List String :=
  s.mediaFiles.map MediaRow.file_hash

/-- Models `json.dumps(media_info)`; only its presence matters to the code,
so any injective executable encoding serves. -/
def serializeMediaInfo (info : MediaInfo) : String :=
  String.intercalate "|" (info.contentType :: info.mediaType.getD "null" :: info.urls)

/-- The media-file insertion loop of `add_message`: for each detected URL,
download (or hit the cache), then INSERT a `media_files` row; inserting a
`file_hash` already present violates the UNIQUE constraint and raises,
which aborts the whole call (the transaction is never committed). -/
def insertMediaRows (mid : Nat) (mediaType : Option String) (fetch : String → Nat) :
    List String → State → Except String State
  | [], s => Except.ok s
  | u :: rest, s =>
    let d := downloadMediaFile s.disk u mediaType fetch
    if (mediaHashes s).contains d.fileHash then
      Except.error "UNIQUE constraint failed: media_files.file_hash"
    else
      insertMediaRows mid mediaType fetch rest
        { s with
            disk := d.disk,
            mediaFiles := s.mediaFiles ++
              [⟨mid, d.fileHash, u, d.localPath, mediaType, d.fileSize⟩] }

/-- The `messages` row inserted by `add_message`. -/
def messageRowFor (s : State) (conversationId role content : String)
    (info : MediaInfo) (now : Nat) : MsgRow :=
  ⟨nextMessageId s, conversationId, role, content, info.contentType,
   if info.hasMedia then some (serializeMediaInfo info) else none, now⟩

/-- The store state right after the message INSERT of `add_message`. -/
def addMessageState (s : State) (conversationId role content : String)
    (info : MediaInfo) (now : Nat) : State :=
  { s with messages := s.messages ++ [messageRowFor s conversationId role content info now] }

/-- Model of `add_message` (`enhanced_history.py`): detect media, insert
the message row (no conversation-existence check; the foreign key is not
enforced), then download and insert one `media_files` row per URL.
`Except.error` models an exception before `commit`, which rolls the whole
call back. -/
def addMessage (s : State) (conversationId role content : String)
    (botName : Option String) (downloadFlag : Bool) (now : Nat)
    (fetch : String → Nat) : Except String (Nat × State) :=
  let info := detectMediaContent content (botName.getD "")
  if info.hasMedia && downloadFlag then
    match insertMediaRows (nextMessageId s) info.mediaType fetch info.urls
        (addMessageState s conversationId role content info now) with
    | Except.ok s2 => Except.ok (nextMessageId s, s2)
    | Except.error e => Except.error e
  else Except.ok (nextMessageId s, addMessageState s conversationId role content info now)

/-- A `media_files` row as projected into a returned message dict. -/
structure MediaOut where
  original_url : String
  local_path : String
  media_type : Option String
  file_size : Nat
deriving DecidableEq, Repr

/-- A message dict as returned by `get_conversation_messages`. -/
structure OutMsg where
  role : String
  content : String
  content_type : String
  timestamp : Nat
  media_info : Option String
  media_files : List MediaOut
deriving DecidableEq, Repr

/-- Insert into a timestamp-sorted list, before the first element with an
equal or later timestamp (so the sort below is stable). -/
def insertByKey {α : Type _} (key : α → Nat) (a : α) : List α → List α
  | [] => [a]
  | x :: xs => if key a ≤ key x then a :: x :: xs else x :: insertByKey key a xs

/-- Stable sort by a `Nat` key.  A stable sort's output is determined by
the key alone, so this models both SQLite's `ORDER BY timestamp ASC`
(ties in rowid = insertion order) and Python's stable
`sorted(..., key=lambda x: x['timestamp'])`. -/
def sortByKey {α : Type _} (key : α → Nat) : List α → List α
  | [] => []
  | x :: xs => insertByKey key x (sortByKey key xs)

/-- Build the returned dict for one message row, attaching `media_info`
and the joined `media_files` rows when media metadata is requested and the
message is media-bearing. -/
def toOutMsg (s : State) (includeMedia : Bool) (m : MsgRow) : OutMsg :=
  let withMedia := includeMedia && (m.content_type == "media" || m.content_type == "mixed")
  { role := m.role
    content := m.content
    content_type := m.content_type
    timestamp := m.timestamp
    media_info := if withMedia then m.media_data else none
    media_files :=
      if withMedia then
        (s.mediaFiles.filter (fun mf => mf.message_id == m.id)).map
          (fun mf => ⟨mf.original_url, mf.local_path, mf.media_type, mf.file_size⟩)
      else [] }

/-- Python's `l[-n:]` slice (whole list when `n = 0`). -/
def pyLastSlice {α : Type _} (n : Nat) (l : List α) : List α :=
  if n = 0 then l else l.drop (l.length - n)

/-- Python's `l[:-n]` slice (empty when `n = 0`). -/
def pyDropLastSlice {α : Type _} (n : Nat) (l : List α) : List α :=
  if n = 0 then [] else l.take (l.length - n)

/-- The dedup key `(msg['role'], msg['content'][:100], msg['timestamp'])`. -/
def msgKey (m : OutMsg) : String × String × Nat :=
  (m.role, m.content.take 100, m.timestamp)

/-- The duplicate-removal loop of the smart-windowing branch: keep the
first occurrence of each key, in order. -/
def dedupByKey : List OutMsg → List (String × String × Nat) → List OutMsg
  | [], _ => []
  | m :: rest, seen =>
    if msgKey m ∈ seen then dedupByKey rest seen
    else m :: dedupByKey rest (msgKey m :: seen)

/-- The earlier media-bearing messages preserved by smart windowing:
`[msg for msg in messages[:-n] if content_type in (media, mixed)][-n:]`. -/
def mediaSel (n : Nat) (msgs : List OutMsg) : List OutMsg :=
  pyLastSlice n
    ((pyDropLastSlice n msgs).filter
      (fun m => m.content_type == "media" || m.content_type == "mixed"))

/-- The smart context-limiting branch of `get_conversation_messages`. -/
def smartWindow (n : Nat) (msgs : List OutMsg) : List OutMsg :=
  sortByKey (fun m => m.timestamp) (dedupByKey (mediaSel n msgs ++ pyLastSlice n msgs) [])

/-- The full ordered dict list for one conversation: rows filtered by
conversation id, ordered by timestamp (stable), then projected. -/
def convOutMsgs (s : State) (conversationId : String) (includeMedia : Bool) :
    List OutMsg :=
  (sortByKey (fun m => m.timestamp)
      (s.messages.filter (fun m => m.conversation_id == conversationId))).map
    (toOutMsg s includeMedia)

/-- Model of `get_conversation_messages` (`enhanced_history.py`): empty
for a missing conversation; smart windowing when the conversation is bound
to a media model and exceeds twice the media context limit. -/
def getConversationMessages (s : State) (conversationId : String)
    (includeMedia : Bool) (n : Nat) : List OutMsg :=
  match s.conversations.find? (fun c => c.id == conversationId) with
  | none => []
  | some conv =>
    if isMediaModel conv.bot_name && Nat.blt (n * 2) (convOutMsgs s conversationId includeMedia).length then
      smartWindow n (convOutMsgs s conversationId includeMedia)
    else convOutMsgs s conversationId includeMedia

/-- The `local_path`s of all media files owned (via messages) by one
conversation — the step-1 join of `delete_conversation`. -/
def conversationMediaPaths (s : State) (conversationId : String) : List String :=
  (s.mediaFiles.filter (fun mf =>
      s.messages.any (fun m => m.id == mf.message_id &&
        m.conversation_id == conversationId))).map MediaRow.local_path

/-- Step 2 of `delete_conversation`: unlink the conversation's media files
from disk. -/
def deleteMediaFromDisk (s : State) (conversationId : String) : State :=
  { s with disk :=
      s.disk.filter (fun e => !(conversationMediaPaths s conversationId).contains e.1) }

/-- Step 3 of `delete_conversation`: delete the conversation's
`media_files` rows. -/
def deleteMediaRows (s : State) (conversationId : String) : State :=
  { s with mediaFiles :=
      s.mediaFiles.filter (fun mf =>
        !(s.messages.any (fun m => m.id == mf.message_id &&
            m.conversation_id == conversationId))) }

/-- Step 4a of `delete_conversation`: delete the conversation's messages. -/
def deleteMessageRows (s : State) (conversationId : String) : State :=
  { s with messages :=
      s.messages.filter (fun m => !(m.conversation_id == conversationId)) }

/-- Step 4b of `delete_conversation`: delete the conversation row. -/
def deleteConvRow (s : State) (conversationId : String) : State :=
  { s with conversations :=
      s.conversations.filter (fun c => !(c.id == conversationId)) }

/-- Model of `delete_conversation`: disk files, then `media_files` rows,
then `messages` rows, then the `conversations` row, in source order. -/
def deleteConversation (s : State) (conversationId : String) : State :=
  deleteConvRow
    (deleteMessageRows
      (deleteMediaRows (deleteMediaFromDisk s conversationId) conversationId)
      conversationId)
    conversationId

/-- The claim C5 theorem. `delete_conversation` performs its steps in the
order disk files, media rows, message rows, conversation row; afterwards
`get_conversation_messages` returns empty, no `media_files` row references
any of the conversation's former messages, and none of their files remain
on disk. -/
theorem c5_delete_conversation_cascade (s : State) (conversationId : String)
    (includeMedia : Bool) (n : Nat) :
    deleteConversation s conversationId =
      deleteConvRow
        (deleteMessageRows
          (deleteMediaRows (deleteMediaFromDisk s conversationId) conversationId)
          conversationId)
        conversationId ∧
    getConversationMessages (deleteConversation s conversationId) conversationId
      includeMedia n = [] ∧
    (∀ mf ∈ (deleteConversation s conversationId).mediaFiles,
      ∀ m ∈ s.messages, m.conversation_id = conversationId →
        mf.message_id ≠ m.id) ∧
    (∀ mf ∈ s.mediaFiles, ∀ m ∈ s.messages,
      m.conversation_id = conversationId → mf.message_id = m.id →
        ∀ e ∈ (deleteConversation s conversationId).disk, e.1 ≠ mf.local_path) := by
  refine ⟨rfl, ?_, ?_, ?_⟩
  · have hfind : (deleteConversation s conversationId).conversations.find?
        (fun c => c.id == conversationId) = none := by
      apply List.find?_eq_none.mpr
      intro c hc
      simp only [deleteConversation, deleteConvRow, deleteMessageRows, deleteMediaRows,
        deleteMediaFromDisk, List.mem_filter, Bool.not_eq_true'] at hc
      simp [hc.2]
    rw [getConversationMessages, hfind]
  · intro mf hmf m hm hcid
    simp only [deleteConversation, deleteConvRow, deleteMessageRows, deleteMediaRows,
      deleteMediaFromDisk, List.mem_filter, Bool.not_eq_true'] at hmf
    intro hid
    have hany : s.messages.any (fun m' => m'.id == mf.message_id &&
        m'.conversation_id == conversationId) = true := by
      apply List.any_eq_true.mpr
      exact ⟨m, hm, by simp [hid, hcid]⟩
    rw [hmf.2] at hany
    exact Bool.false_ne_true hany
  · intro mf hmf m hm hcid hid e he
    have hpath : mf.local_path ∈ conversationMediaPaths s conversationId := by
      apply List.mem_map_of_mem
      apply List.mem_filter.mpr
      refine ⟨hmf, ?_⟩
      apply List.any_eq_true.mpr
      exact ⟨m, hm, by simp [hid, hcid]⟩
    simp only [deleteConversation, deleteConvRow, deleteMessageRows, deleteMediaRows,
      deleteMediaFromDisk, List.mem_filter, Bool.not_eq_true'] at he
    intro heq
    have : (conversationMediaPaths s conversationId).contains e.1 = true := by
      rw [heq]
      exact List.elem_eq_true_of_mem hpath
    rw [he.2] at this
    exact Bool.false_ne_true this

/-- Concrete store used to witness the C5 theorem. -/
def c5State : State :=
  ⟨[⟨"c1", "t", "GPT-4", "chatbot", 0, 0⟩],
   [⟨1, "c1", "user", "see", "media", none, 1⟩],
   [⟨1, "h1", "u1", "media/h1.png", some "image", 7⟩],
   [("media/h1.png", 7)]⟩

/-- Witness for C5 at a concrete store. -/
theorem c5_delete_conversation_cascade_witness :
    getConversationMessages (deleteConversation c5State "c1") "c1" true 5 = [] ∧
    deleteConversation c5State "c1" = ⟨[], [], [], []⟩ :=
  ⟨(c5_delete_conversation_cascade c5State "c1" true 5).2.1, by decide⟩

theorem dedupByKey_subset :
    ∀ (l : List OutMsg) (seen : List (String × String × Nat)) (m : OutMsg),
      m ∈ dedupByKey l seen → m ∈ l
  | [], _, m, h => absurd h (List.not_mem_nil m)
  | x :: rest, seen, m, h => by
    rw [dedupByKey] at h
    by_cases hk : msgKey x ∈ seen
    · rw [if_pos hk] at h
      exact List.mem_cons_of_mem x (dedupByKey_subset rest seen m h)
    · rw [if_neg hk] at h
      rcases List.mem_cons.mp h with heq | h'
      · exact heq ▸ List.mem_cons_self x rest
      · exact List.mem_cons_of_mem x (dedupByKey_subset rest _ m h')

theorem dedupByKey_keys_nodup :
    ∀ (l : List OutMsg) (seen : List (String × String × Nat)),
      ((dedupByKey l seen).map msgKey).Nodup ∧
      ∀ k ∈ (dedupByKey l seen).map msgKey, k ∉ seen
  | [], seen => ⟨List.nodup_nil, by simp [dedupByKey]⟩
  | x :: rest, seen => by
    rw [dedupByKey]
    by_cases hk : msgKey x ∈ seen
    · rw [if_pos hk]
      exact dedupByKey_keys_nodup rest seen
    · rw [if_neg hk]
      obtain ⟨hnd, hdisj⟩ := dedupByKey_keys_nodup rest (msgKey x :: seen)
      constructor
      · rw [List.map_cons, List.nodup_cons]
        exact ⟨fun hmem => (hdisj _ hmem) (List.mem_cons_self _ _), hnd⟩
      · intro k hkmem
        rw [List.map_cons] at hkmem
        rcases List.mem_cons.mp hkmem with rfl | h'
        · exact hk
        · exact fun hks => (hdisj k h') (List.mem_cons_of_mem _ hks)

theorem dedupByKey_covers :
    ∀ (l : List OutMsg) (seen : List (String × String × Nat)) (m : OutMsg), m ∈ l →
      msgKey m ∈ seen ∨ ∃ m', m' ∈ dedupByKey l seen ∧ msgKey m' = msgKey m
  | [], _, m, h => absurd h (List.not_mem_nil m)
  | x :: rest, seen, m, h => by
    rw [dedupByKey]
    by_cases hk : msgKey x ∈ seen
    · rw [if_pos hk]
      rcases List.mem_cons.mp h with heq | h'
      · exact Or.inl (heq ▸ hk)
      · exact dedupByKey_covers rest seen m h'
    · rw [if_neg hk]
      rcases List.mem_cons.mp h with heq | h'
      · exact Or.inr ⟨x, List.mem_cons_self _ _, by rw [heq]⟩
      · rcases dedupByKey_covers rest (msgKey x :: seen) m h' with hin | ⟨m', hm', hkey⟩
        · rcases List.mem_cons.mp hin with heq | hsn
          · exact Or.inr ⟨x, List.mem_cons_self _ _, heq.symm⟩
          · exact Or.inl hsn
        · exact Or.inr ⟨m', List.mem_cons_of_mem _ hm', hkey⟩

theorem pyLastSlice_subset {α : Type _} (n : Nat) (l : List α) {m : α}
    (h : m ∈ pyLastSlice n l) : m ∈ l := by
  unfold pyLastSlice at h
  by_cases hn : n = 0
  · rwa [if_pos hn] at h
  · rw [if_neg hn] at h
    exact List.mem_of_mem_drop h

theorem mediaSel_length_le (n : Nat) (msgs : List OutMsg) :
    (mediaSel n msgs).length ≤ n := by
  unfold mediaSel pyLastSlice pyDropLastSlice
  by_cases h : n = 0
  · subst h; simp
  · rw [if_neg h, if_neg h, List.length_drop]
    omega

theorem mediaSel_spec (n : Nat) (msgs : List OutMsg) :
    ∀ m ∈ mediaSel n msgs,
      m ∈ pyDropLastSlice n msgs ∧
      (m.content_type = "media" ∨ m.content_type = "mixed") := by
  intro m hm
  have hf := pyLastSlice_subset n _ hm
  have := List.mem_filter.mp hf
  refine ⟨this.1, ?_⟩
  have hb := this.2
  simp only [Bool.or_eq_true, beq_iff_eq] at hb
  exact hb

theorem insertByKey_perm {α : Type _} (key : α → Nat) (a : α) :
    ∀ l : List α, List.Perm (insertByKey key a l) (a :: l)
  | [] => List.Perm.refl _
  | x :: xs => by
    rw [insertByKey]
    by_cases h : key a ≤ key x
    · rw [if_pos h]
    · rw [if_neg h]
      exact (List.Perm.cons x (insertByKey_perm key a xs)).trans
        (List.Perm.swap a x xs)

theorem sortByKey_perm {α : Type _} (key : α → Nat) :
    ∀ l : List α, List.Perm (sortByKey key l) l
  | [] => List.Perm.refl _
  | x :: xs =>
    (insertByKey_perm key x (sortByKey key xs)).trans
      (List.Perm.cons x (sortByKey_perm key xs))

theorem mem_sortByKey {α : Type _} (key : α → Nat) (l : List α) (a : α) :
    a ∈ sortByKey key l ↔ a ∈ l :=
  (sortByKey_perm key l).mem_iff

theorem insertByKey_sorted {α : Type _} (key : α → Nat) (a : α) :
    ∀ {l : List α}, l.Pairwise (fun p q => key p ≤ key q) →
      (insertByKey key a l).Pairwise (fun p q => key p ≤ key q)
  | [], _ => by simp [insertByKey]
  | x :: xs, h => by
    rw [insertByKey]
    obtain ⟨hx, hxs⟩ := List.pairwise_cons.mp h
    by_cases hle : key a ≤ key x
    · rw [if_pos hle]
      apply List.pairwise_cons.mpr
      refine ⟨?_, h⟩
      intro b hb
      rcases List.mem_cons.mp hb with rfl | hb'
      · exact hle
      · exact Nat.le_trans hle (hx b hb')
    · rw [if_neg hle]
      apply List.pairwise_cons.mpr
      refine ⟨?_, insertByKey_sorted key a hxs⟩
      intro b hb
      rcases List.mem_cons.mp ((insertByKey_perm key a xs).mem_iff.mp hb) with rfl | hb'
      · exact Nat.le_of_lt (Nat.lt_of_not_le hle)
      · exact hx b hb'

theorem sortByKey_sorted {α : Type _} (key : α → Nat) :
    ∀ l : List α, (sortByKey key l).Pairwise (fun p q => key p ≤ key q)
  | [] => List.Pairwise.nil
  | x :: xs => insertByKey_sorted key x (sortByKey_sorted key xs)

/-- The amended claim C4 theorem.  For a conversation bound to a media
model with more than `2*N` messages, the windowed result (a) contains, for
each of the `N` most recent messages, an entry with the same
`(role, content-prefix, timestamp)` dedup key — the message itself unless
an earlier kept media message collides on that key; (b) consists only of
the `N` most recent messages and at most `N` earlier media-bearing
messages; (c) contains no two entries with identical keys; (d) is sorted
by timestamp. -/
theorem c4_smart_windowing_amended (s : State) (conversationId : String)
    (conv : ConvRow) (includeMedia : Bool) (n : Nat)
    (hfind : s.conversations.find? (fun c => c.id == conversationId) = some conv)
    (hmedia : isMediaModel conv.bot_name = true)
    (hlen : n * 2 < (convOutMsgs s conversationId includeMedia).length) :
    getConversationMessages s conversationId includeMedia n =
      smartWindow n (convOutMsgs s conversationId includeMedia) ∧
    (∀ m ∈ pyLastSlice n (convOutMsgs s conversationId includeMedia),
      ∃ m' ∈ getConversationMessages s conversationId includeMedia n,
        msgKey m' = msgKey m) ∧
    (∀ m ∈ getConversationMessages s conversationId includeMedia n,
      m ∈ pyLastSlice n (convOutMsgs s conversationId includeMedia) ∨
      m ∈ mediaSel n (convOutMsgs s conversationId includeMedia)) ∧
    (mediaSel n (convOutMsgs s conversationId includeMedia)).length ≤ n ∧
    (∀ m ∈ mediaSel n (convOutMsgs s conversationId includeMedia),
      m ∈ pyDropLastSlice n (convOutMsgs s conversationId includeMedia) ∧
      (m.content_type = "media" ∨ m.content_type = "mixed")) ∧
    ((getConversationMessages s conversationId includeMedia n).map msgKey).Nodup ∧
    (getConversationMessages s conversationId includeMedia n).Pairwise
      (fun a b => a.timestamp ≤ b.timestamp) := by
  have hblt : Nat.blt (n * 2) (convOutMsgs s conversationId includeMedia).length = true := by
    simpa [Nat.blt_eq] using hlen
  have hres : getConversationMessages s conversationId includeMedia n =
      smartWindow n (convOutMsgs s conversationId includeMedia) := by
    simp [getConversationMessages, hfind, hmedia, hblt]
  set msgs := convOutMsgs s conversationId includeMedia with hmsgs
  set ctx := mediaSel n msgs ++ pyLastSlice n msgs with hctx
  have hdef : smartWindow n msgs = sortByKey (fun m => m.timestamp) (dedupByKey ctx []) := rfl
  refine ⟨hres, ?_, ?_, mediaSel_length_le n msgs, mediaSel_spec n msgs, ?_, ?_⟩
  · intro m hm
    have hmc : m ∈ ctx := List.mem_append_right _ hm
    rcases dedupByKey_covers ctx [] m hmc with hin | ⟨m', hm', hkey⟩
    · exact absurd hin (List.not_mem_nil _)
    · refine ⟨m', ?_, hkey⟩
      rw [hres, hdef]
      exact (mem_sortByKey _ _ m').mpr hm'
  · intro m hm
    rw [hres, hdef] at hm
    have := dedupByKey_subset ctx [] m ((mem_sortByKey _ _ m).mp hm)
    exact (List.mem_append.mp this).symm
  · rw [hres, hdef]
    have hperm : List.Perm
        ((sortByKey (fun m => m.timestamp) (dedupByKey ctx [])).map msgKey)
        ((dedupByKey ctx []).map msgKey) :=
      (sortByKey_perm (fun m => m.timestamp) (dedupByKey ctx [])).map msgKey
    exact hperm.nodup_iff.mpr (dedupByKey_keys_nodup ctx []).1
  · rw [hres, hdef]
    exact sortByKey_sorted (fun m => m.timestamp) (dedupByKey ctx [])

/-- Conversation store used for the C4 counterexample and witness: a
DALL-E-3 conversation with three messages sharing one timestamp, where an
early media message collides with the most recent message on the dedup key
`(role, content-prefix, timestamp)` while differing in `content_type`. -/
def c4State : State :=
  ⟨[⟨"c1", "t", "DALL-E-3", "chatbot", 0, 0⟩],
   [⟨1, "c1", "assistant", "x", "media", none, 5⟩,
    ⟨2, "c1", "user", "y", "text", none, 5⟩,
    ⟨3, "c1", "assistant", "x", "text", none, 5⟩],
   [], []⟩

set_option maxRecDepth 10000 in
/-- Counterexample to claim C4 as stated: with `N = 1`, the most recent
message (role `assistant`, content `x`, `content_type` `text`) is *not* in
the returned window — the dedup by `(role, content[:100], timestamp)`
dropped it in favour of the colliding earlier media message — even though
the conversation is media-bound and exceeds `2*N` messages. -/
theorem c4_smart_windowing_counterexample :
    isMediaModel "DALL-E-3" = true ∧
    1 * 2 < (convOutMsgs c4State "c1" true).length ∧
    (⟨"assistant", "x", "text", 5, none, []⟩ : OutMsg) ∈
      pyLastSlice 1 (convOutMsgs c4State "c1" true) ∧
    (⟨"assistant", "x", "text", 5, none, []⟩ : OutMsg) ∉
      getConversationMessages c4State "c1" true 1 := by
  decide

/-- Witness for the amended C4 at the concrete store. -/
theorem c4_smart_windowing_amended_witness :
    getConversationMessages c4State "c1" true 1 =
      smartWindow 1 (convOutMsgs c4State "c1" true) ∧
    ((getConversationMessages c4State "c1" true 1).map msgKey).Nodup :=
  ⟨(c4_smart_windowing_amended c4State "c1" ⟨"c1", "t", "DALL-E-3", "chatbot", 0, 0⟩
      true 1 (by decide) (by decide) (by decide)).1,
   (c4_smart_windowing_amended c4State "c1" ⟨"c1", "t", "DALL-E-3", "chatbot", 0, 0⟩
      true 1 (by decide) (by decide) (by decide)).2.2.2.2.2.1⟩

theorem downloadMediaFile_fileHash (disk : List (String × Nat)) (url : String)
    (mediaType : Option String) (fetch : String → Nat) :
    (downloadMediaFile disk url mediaType fetch).fileHash = urlHash url := by
  unfold downloadMediaFile
  split <;> (dsimp only; split <;> rfl)

theorem insertMediaRows_preserves (mid : Nat) (mediaType : Option String)
    (fetch : String → Nat) :
    ∀ (urls : List String) (s s' : State),
      insertMediaRows mid mediaType fetch urls s = Except.ok s' →
      s'.messages = s.messages ∧ s'.conversations = s.conversations
  | [], s, s', h => by
    rw [insertMediaRows] at h
    cases h
    exact ⟨rfl, rfl⟩
  | u :: rest, s, s', h => by
    rw [insertMediaRows] at h
    by_cases hc : (mediaHashes s).contains
        (downloadMediaFile s.disk u mediaType fetch).fileHash
    · rw [if_pos hc] at h
      cases h
    · rw [if_neg hc] at h
      obtain ⟨h1, h2⟩ := insertMediaRows_preserves mid mediaType fetch rest _ s' h
      exact ⟨h1, h2⟩
  termination_by urls => urls.length

theorem insertMediaRows_fresh_ok (mid : Nat) (mediaType : Option String)
    (fetch : String → Nat) :
    ∀ (urls : List String) (s : State),
      (urls.map urlHash).Nodup →
      (∀ u ∈ urls, urlHash u ∉ mediaHashes s) →
      ∃ s', insertMediaRows mid mediaType fetch urls s = Except.ok s'
  | [], s, _, _ => ⟨s, rfl⟩
  | u :: rest, s, hnd, hfresh => by
    rw [insertMediaRows]
    have hhash := downloadMediaFile_fileHash s.disk u mediaType fetch
    have hnm : urlHash u ∉ mediaHashes s := hfresh u (List.mem_cons_self _ _)
    have hc : (mediaHashes s).contains
        (downloadMediaFile s.disk u mediaType fetch).fileHash = false := by
      rw [hhash]
      cases hcc : (mediaHashes s).contains (urlHash u)
      · rfl
      · exact absurd (List.mem_of_elem_eq_true hcc) hnm
    rw [if_neg (by simp only [hc]; exact Bool.false_ne_true)]
    apply insertMediaRows_fresh_ok mid mediaType fetch rest
    · exact (List.nodup_cons.mp hnd).2
    · intro u' hu'
      have hm' : mediaHashes { s with
          disk := (downloadMediaFile s.disk u mediaType fetch).disk,
          mediaFiles := s.mediaFiles ++
            [⟨mid, (downloadMediaFile s.disk u mediaType fetch).fileHash, u,
              (downloadMediaFile s.disk u mediaType fetch).localPath, mediaType,
              (downloadMediaFile s.disk u mediaType fetch).fileSize⟩] } =
          mediaHashes s ++ [urlHash u] := by
        simp [mediaHashes, hhash]
      rw [hm']
      intro hmem
      rcases List.mem_append.mp hmem with hold | hnew
      · exact hfresh u' (List.mem_cons_of_mem _ hu') hold
      · have heq : urlHash u' = urlHash u := List.mem_singleton.mp hnew
        have : urlHash u ∈ rest.map urlHash :=
          heq ▸ List.mem_map_of_mem urlHash hu'
        exact (List.nodup_cons.mp hnd).1 this
  termination_by urls => urls.length

theorem insertMediaRows_dup_error (mid : Nat) (mediaType : Option String)
    (fetch : String → Nat) :
    ∀ (urls : List String) (s : State) (u : String), u ∈ urls →
      urlHash u ∈ mediaHashes s →
      ∃ e, insertMediaRows mid mediaType fetch urls s = Except.error e
  | [], _, u, hu, _ => absurd hu (List.not_mem_nil u)
  | u0 :: rest, s, u, hu, hh => by
    rw [insertMediaRows]
    have hhash := downloadMediaFile_fileHash s.disk u0 mediaType fetch
    by_cases hc : (mediaHashes s).contains
        (downloadMediaFile s.disk u0 mediaType fetch).fileHash = true
    · rw [if_pos hc]
      exact ⟨"UNIQUE constraint failed: media_files.file_hash", rfl⟩
    · rw [if_neg hc]
      have hu0 : u ≠ u0 := by
        rintro rfl
        rw [hhash] at hc
        exact hc (List.elem_eq_true_of_mem hh)
      have hu' : u ∈ rest := by
        rcases List.mem_cons.mp hu with heq | h'
        · exact absurd heq hu0
        · exact h'
      apply insertMediaRows_dup_error mid mediaType fetch rest _ u hu'
      have hm' : mediaHashes { s with
          disk := (downloadMediaFile s.disk u0 mediaType fetch).disk,
          mediaFiles := s.mediaFiles ++
            [⟨mid, (downloadMediaFile s.disk u0 mediaType fetch).fileHash, u0,
              (downloadMediaFile s.disk u0 mediaType fetch).localPath, mediaType,
              (downloadMediaFile s.disk u0 mediaType fetch).fileSize⟩] } =
          mediaHashes s ++ [urlHash u0] := by
        simp [mediaHashes, hhash]
      rw [hm']
      exact List.mem_append_left _ hh
  termination_by urls => urls.length

theorem detect_hasMedia_of_mem_urls {content botName : String} {u : String}
    (hu : u ∈ (detectMediaContent content botName).urls) :
    (detectMediaContent content botName).hasMedia = true ∧
    (detectMediaContent content botName).urls = findAllUrls content := by
  unfold detectMediaContent at hu ⊢
  by_cases h : findAllUrls content ≠ [] ∨ (detectMediaType botName).isSome
  · rw [if_pos h] at hu ⊢
    exact ⟨rfl, rfl⟩
  · rw [if_neg h] at hu
    exact absurd hu (List.not_mem_nil u)

/-- The amended claim C6 theorem: when any URL detected in the content has
a digest already present in `media_files` (as after a previous
`add_message` referencing the same URL), `add_message` does *not* resolve
the duplicate by lookup-then-skip: the duplicate-hash INSERT raises, and
the uniqueness error propagates to the caller (only the on-disk download
is deduplicated by the existence check). -/
theorem c6_duplicate_media_url_raises_amended (s : State)
    (conversationId role content : String) (botName : Option String) (now : Nat)
    (fetch : String → Nat) (u : String)
    (hu : u ∈ (detectMediaContent content (botName.getD "")).urls)
    (hh : urlHash u ∈ mediaHashes s) :
    ∃ e, addMessage s conversationId role content botName true now fetch =
      Except.error e := by
  obtain ⟨hmed, -⟩ := detect_hasMedia_of_mem_urls hu
  rw [addMessage]
  have hcond : ((detectMediaContent content (botName.getD "")).hasMedia && true) = true := by
    rw [hmed]; rfl
  rw [if_pos hcond]
  obtain ⟨e, he⟩ := insertMediaRows_dup_error
    (nextMessageId s) (detectMediaContent content (botName.getD "")).mediaType fetch
    (detectMediaContent content (botName.getD "")).urls
    (addMessageState s conversationId role content
      (detectMediaContent content (botName.getD "")) now) u hu hh
  rw [he]
  exact ⟨e, rfl⟩

/-- Conversation store before the first `add_message` of the C6 scenario. -/
def c6Base : State := ⟨[⟨"c1", "t", "b", "chatbot", 0, 0⟩], [], [], []⟩

/-- Store state after the first `add_message` whose content references
`https://h/a.png`. -/
def c6After : State :=
  match addMessage c6Base "c1" "assistant" "https://h/a.png" none true 1 (fun _ => 7) with
  | Except.ok r => r.2
  | Except.error _ => c6Base

set_option maxRecDepth 10000 in
/-- Counterexample to claim C6 as stated: the first `add_message` for a
media URL succeeds; the second `add_message` for the same URL (same
content hash) does not succeed — it propagates the uniqueness error. -/
theorem c6_duplicate_media_url_counterexample :
    (addMessage c6Base "c1" "assistant" "https://h/a.png" none true 1
        (fun _ => 7)).isOk = true ∧
    addMessage c6After "c1" "assistant" "https://h/a.png" none true 2 (fun _ => 7) =
      Except.error "UNIQUE constraint failed: media_files.file_hash" := by
  exact ⟨rfl, rfl⟩

/-- Witness for the amended C6 in the concrete two-call scenario. -/
theorem c6_duplicate_media_url_raises_amended_witness :
    ∃ e, addMessage c6After "c1" "assistant" "https://h/a.png" none true 2
        (fun _ => 7) = Except.error e :=
  c6_duplicate_media_url_raises_amended c6After "c1" "assistant" "https://h/a.png"
    none 2 (fun _ => 7) "https://h/a.png" (by decide)
    (by decide)

theorem le_foldr_max : ∀ (l : List Nat), ∀ x ∈ l, x ≤ l.foldr max 0
  | [], x, hx => absurd hx (List.not_mem_nil x)
  | a :: t, x, hx => by
    rcases List.mem_cons.mp hx with rfl | h
    · exact Nat.le_max_left _ _
    · exact Nat.le_trans (le_foldr_max t x h) (Nat.le_max_right _ _)

/-- The claim C10 theorem. `add_message` with a `conversation_id` that has
no conversation row performs no existence check: it succeeds (given the
media hashes of the content are fresh, the orthogonal C6 condition),
inserts the message row under a fresh id, and a subsequent
`get_conversation_messages` for that id still returns the empty list. -/
theorem c10_add_message_without_conversation (s : State)
    (conversationId role content : String) (botName : Option String) (now : Nat)
    (fetch : String → Nat) (includeMedia : Bool) (n : Nat)
    (hconv : ∀ c ∈ s.conversations, c.id ≠ conversationId)
    (hnodup : ((detectMediaContent content (botName.getD "")).urls.map urlHash).Nodup)
    (hfresh : ∀ u ∈ (detectMediaContent content (botName.getD "")).urls,
      urlHash u ∉ mediaHashes s) :
    (addMessage s conversationId role content botName true now fetch).isOk = true ∧
    (∀ r, addMessage s conversationId role content botName true now fetch =
        Except.ok r →
      r.1 = nextMessageId s ∧
      (∃ m ∈ r.2.messages, m.id = r.1 ∧ m.conversation_id = conversationId) ∧
      (∀ m ∈ s.messages, m.id ≠ r.1) ∧
      getConversationMessages r.2 conversationId includeMedia n = []) := by
  have hrow : ∀ r, addMessage s conversationId role content botName true now fetch =
      Except.ok r →
      r.1 = nextMessageId s ∧ r.2.conversations = s.conversations ∧
      (∃ m ∈ r.2.messages, m.id = nextMessageId s ∧
        m.conversation_id = conversationId) := by
    intro r hr
    rw [addMessage] at hr
    by_cases hm : (detectMediaContent content (botName.getD "")).hasMedia = true
    · have hcond : ((detectMediaContent content (botName.getD "")).hasMedia && true)
          = true := by rw [hm]; rfl
      rw [if_pos hcond] at hr
      rcases hins : insertMediaRows (nextMessageId s)
          (detectMediaContent content (botName.getD "")).mediaType fetch
          (detectMediaContent content (botName.getD "")).urls
          (addMessageState s conversationId role content
            (detectMediaContent content (botName.getD "")) now) with e2 | s2
      · rw [hins] at hr
        cases hr
      · rw [hins] at hr
        cases hr
        obtain ⟨hmsg, hcnv⟩ := insertMediaRows_preserves _ _ _ _ _ _ hins
        refine ⟨rfl, hcnv, ?_⟩
        rw [hmsg]
        exact ⟨_, List.mem_append_right _ (List.mem_singleton_self _), rfl, rfl⟩
    · have hm' : (detectMediaContent content (botName.getD "")).hasMedia = false := by
        rwa [Bool.not_eq_true] at hm
      have hcond : ((detectMediaContent content (botName.getD "")).hasMedia && true)
          = false := by rw [hm']; rfl
      rw [if_neg (fun hct => Bool.false_ne_true (hcond ▸ hct))] at hr
      cases hr
      refine ⟨rfl, rfl, ?_⟩
      exact ⟨_, List.mem_append_right _ (List.mem_singleton_self _), rfl, rfl⟩
  constructor
  · by_cases hm : (detectMediaContent content (botName.getD "")).hasMedia = true
    · rw [addMessage]
      have hcond : ((detectMediaContent content (botName.getD "")).hasMedia && true)
          = true := by rw [hm]; rfl
      rw [if_pos hcond]
      obtain ⟨s2, hs2⟩ := insertMediaRows_fresh_ok
        (nextMessageId s) (detectMediaContent content (botName.getD "")).mediaType
        fetch (detectMediaContent content (botName.getD "")).urls
        (addMessageState s conversationId role content
          (detectMediaContent content (botName.getD "")) now) hnodup
        (fun u hu => hfresh u hu)
      rw [hs2]
      rfl
    · rw [addMessage]
      have hm' : (detectMediaContent content (botName.getD "")).hasMedia = false := by
        rwa [Bool.not_eq_true] at hm
      have hcond : ((detectMediaContent content (botName.getD "")).hasMedia && true)
          = false := by rw [hm']; rfl
      rw [if_neg (fun hct => Bool.false_ne_true (hcond ▸ hct))]
      rfl
  · intro r hr
    obtain ⟨hid, hcnv, m, hm, hmid, hmcid⟩ := hrow r hr
    refine ⟨hid, ⟨m, hm, by rw [hid]; exact hmid, hmcid⟩, ?_, ?_⟩
    · intro m' hm' heq
      have := le_foldr_max (s.messages.map MsgRow.id) m'.id
        (List.mem_map_of_mem MsgRow.id hm')
      rw [heq, hid] at this
      unfold nextMessageId at this
      omega
    · have hfind : r.2.conversations.find? (fun c => c.id == conversationId) = none := by
        rw [hcnv]
        apply List.find?_eq_none.mpr
        intro c hc
        simp [hconv c hc]
      rw [getConversationMessages, hfind]

/-- Witness for C10: adding to a store with no conversations still
succeeds and reads back empty. -/
theorem c10_add_message_without_conversation_witness :
    (addMessage ⟨[], [], [], []⟩ "nope" "user" "hi" none true 0
        (fun _ => 0)).isOk = true ∧
    getConversationMessages
      ⟨[], [⟨1, "nope", "user", "hi", "text", none, 0⟩], [], []⟩ "nope" true 5 = [] :=
  ⟨(c10_add_message_without_conversation ⟨[], [], [], []⟩ "nope" "user" "hi" none 0
      (fun _ => 0) true 5 (by decide) (by decide) (by decide)).1,
   ((c10_add_message_without_conversation ⟨[], [], [], []⟩ "nope" "user" "hi" none 0
      (fun _ => 0) true 5 (by decide) (by decide) (by decide)).2
      (1, ⟨[], [⟨1, "nope", "user", "hi", "text", none, 0⟩], [], []⟩)
      rfl).2.2.2⟩

/-- Counterexample to claim C9 as stated: for content with no URLs coming
from the media model "DALL-E-3", the code labels the message `mixed`,
whereas the claim requires `mixed` only when URLs are present without a
model-family match (and `text` otherwise). -/
theorem c9_media_detection_counterexample :
    ¬ ( ((detectMediaContent "hello" "DALL-E-3").contentType = "media" ↔
          (detectMediaType "DALL-E-3").isSome = true ∧ findAllUrls "hello" ≠ []) ∧
        ((detectMediaContent "hello" "DALL-E-3").contentType = "mixed" ↔
          findAllUrls "hello" ≠ [] ∧ (detectMediaType "DALL-E-3").isSome = false) ∧
        ((detectMediaContent "hello" "DALL-E-3").contentType = "text" ↔
          ¬ ((detectMediaType "DALL-E-3").isSome = true ∧ findAllUrls "hello" ≠ []) ∧
          ¬ (findAllUrls "hello" ≠ [] ∧ (detectMediaType "DALL-E-3").isSome = false)) ) := by
  decide

/-- The amended claim C9 theorem: `media` exactly when a media model family
matches and at least one URL is found; `mixed` exactly when URLs are found
without a family match, or a family matches without any URL; `text`
exactly when neither a family matches nor any URL is found. -/
theorem c9_media_detection_amended (content botName : String) :
    ((detectMediaContent content botName).contentType = "media" ↔
      (detectMediaType botName).isSome ∧ findAllUrls content ≠ []) ∧
    ((detectMediaContent content botName).contentType = "mixed" ↔
      (findAllUrls content ≠ [] ∧ ¬ (detectMediaType botName).isSome) ∨
      ((detectMediaType botName).isSome ∧ findAllUrls content = [])) ∧
    ((detectMediaContent content botName).contentType = "text" ↔
      ¬ (detectMediaType botName).isSome ∧ findAllUrls content = []) := by
  by_cases hm : (detectMediaType botName).isSome <;>
    by_cases hu : findAllUrls content = [] <;>
      simp [detectMediaContent, hm, hu]

end PyPoe
